import Mathlib

/-!
Shallow embedding of the route-tree engine found in
src/modules/@angular/router/src/segments.ts, together with spec-modelled
definitions for the collaborators that are not part of this source snapshot
(StringMapWrapper.equals from facade/collection, the URL serializer, and the
link algorithm of src/link.ts).

Conventions of the embedding:
* JavaScript string maps are association lists of type List (String × String);
  a JS object can never hold two entries with the same key, which is captured
  by the wellformedness predicate nodupKeys.
* Nullable JS values are Option values; none is null.
* JS reference identity of segment objects is modelled by an explicit ref
  field: two structurally equal segments with different ref fields model two
  distinct JS objects.
* A JS function that can raise a TypeError is embedded with an Option or
  Except result; none respectively Except.error models the raised error.
-/

namespace Router

/-- Modelled from the spec: lookup in a JS string map (member access m[k]);
none models the undefined result for an absent key. -/
def mapLookup (k : String) : List (String × String) → Option String
  | [] => none
  | kv :: rest => if kv.1 == k then some kv.2 else mapLookup k rest

/-- Modelled from the spec: StringMapWrapper.equals from facade/collection
(that file is not part of this snapshot); sections 3 and 4.2 of the spec state
that parameter maps are compared as sets of key/value pairs, order
independent: same number of keys, and every entry of the first map is an
entry of the second. -/
def stringMapEquals (m1 m2 : List (String × String)) : Bool :=
  (m1.length == m2.length) && m1.all (fun kv => mapLookup kv.1 m2 == some kv.2)

/-- Modelled from the spec: section 4.2 allows an implementation to treat an
absent (null) parameter map as an empty map for the purpose of comparison.
The console.log diagnostic that equalUrlSegments emits in that situation is a
side effect without influence on the returned value and is not modelled. -/
def stringMapEqualsOpt (m1 m2 : Option (List (String × String))) : Bool :=
  stringMapEquals (m1.getD []) (m2.getD [])

/-- UrlSegment from segments.ts lines 92-100: raw path token, matrix
parameters and outlet name. The segment field is a String because the URL
parser always supplies strings; parameters and outlet are nullable; ref
models JS object identity. -/
structure UrlSegment where
  segment : String
  parameters : Option (List (String × String))
  outlet : Option String
  ref : Nat
deriving DecidableEq

/-- RouteSegment from segments.ts lines 108-128. The fields _type and
componentFactory are the two opaque pass-through tokens; they are only ever
compared by identity, hence they are modelled as nullable identity tokens.
The ref field models JS object identity. -/
structure RouteSegment where
  urlSegments : List UrlSegment
  parameters : Option (List (String × String))
  outlet : Option String
  _type : Option Nat
  componentFactory : Option Nat
  ref : Nat
deriving DecidableEq

/-- Core comparison of equalSegments, segments.ts lines 143-145, reached when
both arguments are present: matched-route-type identity, then outlet, then
the parameter maps. The urlSegments, componentFactory and ref fields are not
inspected. -/
def equalSegmentsCore (a b : RouteSegment) : Bool :=
  (a._type == b._type) && (a.outlet == b.outlet) &&
    stringMapEqualsOpt a.parameters b.parameters

/-- equalSegments from segments.ts lines 140-146. The two isBlank guards
return false when exactly one argument is null; when both arguments are null
neither guard fires and the JS code reads a._type of null, raising a
TypeError, which is modelled by the none result. -/
def equalSegments : Option RouteSegment → Option RouteSegment → Option Bool
  | none, some _ => some false
  | some _, none => some false
  | none, none => none
  | some a, some b => some (equalSegmentsCore a b)

/-- Core comparison of equalUrlSegments, segments.ts lines 151-159, reached
when both arguments are present: segment token, then outlet, then the
parameter maps. -/
def equalUrlSegmentsCore (a b : UrlSegment) : Bool :=
  (a.segment == b.segment) && (a.outlet == b.outlet) &&
    stringMapEqualsOpt a.parameters b.parameters

/-- equalUrlSegments from segments.ts lines 148-160, with the same null
behaviour as equalSegments: false when exactly one argument is null, a
TypeError (none) when both are null, since the code then reads a.segment of
null. -/
def equalUrlSegments : Option UrlSegment → Option UrlSegment → Option Bool
  | none, some _ => some false
  | some _, none => some false
  | none, none => none
  | some a, some b => some (equalUrlSegmentsCore a b)

/-- Tree values. Tree is generic in the source; per _equalValues it is used
with RouteSegment values, UrlSegment values, and any other value compared by
identity. The prim variant models such an other value by an identity token. -/
inductive Val where
  | route (r : RouteSegment)
  | url (u : UrlSegment)
  | prim (n : Nat)
deriving DecidableEq

/-- JS strict equality on tree values: reference identity for segment
objects, value identity for primitives, false across variants. -/
def jsIdentical : Val → Val → Bool
  | .route a, .route b => a.ref == b.ref
  | .url a, .url b => a.ref == b.ref
  | .prim a, .prim b => a == b
  | _, _ => false

/-- equalSegments applied to an arbitrary second value, as called by
_findNode and _equalValues. When the second value is not a RouteSegment the
JS comparison reads undefined for b._type, and the strict inequality
a._type !== b._type then holds because a._type is null or a type token and
never undefined, so the call returns false. -/
def equalSegmentsVal (a : RouteSegment) : Val → Bool
  | .route b => equalSegmentsCore a b
  | _ => false

/-- equalUrlSegments applied to an arbitrary second value. When the second
value is not a UrlSegment the JS comparison reads undefined for b.segment,
and a.segment != undefined holds because a.segment is a string, so the call
returns false. -/
def equalUrlSegmentsVal (a : UrlSegment) : Val → Bool
  | .url b => equalUrlSegmentsCore a b
  | _ => false

/-- _equalValues from segments.ts lines 82-86: dispatch on the runtime
variant of the left operand. -/
def equalValuesV : Val → Val → Bool
  | .route a, b => equalSegmentsVal a b
  | .url a, b => equalUrlSegmentsVal a b
  | .prim a, b => jsIdentical (.prim a) b

/-- TreeNode from segments.ts lines 88-90: a value and an ordered child
list. -/
inductive TreeNodeV where
  | mk (value : Val) (children : List TreeNodeV)

def TreeNodeV.value : TreeNodeV → Val
  | .mk v _ => v

def TreeNodeV.children : TreeNodeV → List TreeNodeV
  | .mk _ cs => cs

/-- Match test used by _findNode, segments.ts lines 47-48: the structural
RouteSegment special case (the vsavkin TODO), or strict identity. Note that
there is no UrlSegment case here. -/
def routeStructMatch : Val → Val → Bool
  | .route a, w => equalSegmentsVal a w
  | _, _ => false

def findNodeMatch (expected w : Val) : Bool :=
  routeStructMatch expected w || jsIdentical expected w

mutual
/-- _findNode from segments.ts lines 45-54. -/
def findNode (expected : Val) : TreeNodeV → Option TreeNodeV
  | .mk v cs =>
    if routeStructMatch expected v then some (.mk v cs)
    else if jsIdentical expected v then some (.mk v cs)
    else findNodeL expected cs
/-- Loop over the children inside _findNode. -/
def findNodeL (expected : Val) : List TreeNodeV → Option TreeNodeV
  | [] => none
  | c :: rest =>
    match findNode expected c with
    | some r => some r
    | none => findNodeL expected rest
end

mutual
/-- _findPath from segments.ts lines 56-68. The JS code pushes the current
node onto the collected array before testing, and every recursive call
receives a clone of the array, so the accumulator is pure. -/
def findPath (expected : Val) (c : TreeNodeV) (collected : List TreeNodeV) :
    Option (List TreeNodeV) :=
  match c with
  | .mk v cs =>
    if equalValuesV expected v then some (collected ++ [.mk v cs])
    else findPathL expected cs (collected ++ [.mk v cs])
/-- Loop over the children inside _findPath. -/
def findPathL (expected : Val) (cs : List TreeNodeV)
    (collected : List TreeNodeV) : Option (List TreeNodeV) :=
  match cs with
  | [] => none
  | c :: rest =>
    match findPath expected c collected with
    | some r => some r
    | none => findPathL expected rest collected
end

mutual
/-- _contains from segments.ts lines 70-80: each subtree child is matched
against the first value-equal child of the current node (element zero of the
filter result) and only that child is recursed into. -/
def containsNode : TreeNodeV → TreeNodeV → Bool
  | t, .mk sv scs => equalValuesV t.value sv && containsChildren t.children scs
/-- Loop over the subtree children inside _contains. -/
def containsChildren (tcs : List TreeNodeV) : List TreeNodeV → Bool
  | [] => true
  | sc :: rest =>
    match tcs.filter (fun c => equalValuesV c.value sc.value) with
    | [] => false
    | m :: _ => containsNode m sc && containsChildren tcs rest
end

/-- Tree from segments.ts lines 5-31; the field name _root mirrors the
source. -/
structure TreeV where
  _root : TreeNodeV

/-- root getter, segments.ts line 11. -/
def TreeV.root (t : TreeV) : Val := t._root.value

/-- children from segments.ts lines 18-21: null when the value is not
found. -/
def TreeV.children (t : TreeV) (v : Val) : Option (List Val) :=
  (findNode v t._root).map (fun n => n.children.map TreeNodeV.value)

/-- firstChild from segments.ts lines 23-26: null when the value is not
found or when the matching node has no children. -/
def TreeV.firstChild (t : TreeV) (v : Val) : Option Val :=
  match findNode v t._root with
  | some n =>
    match n.children with
    | c :: _ => some c.value
    | [] => none
  | none => none

/-- pathFromRoot from segments.ts line 28. _findPath yields null when the
value is absent from the tree, and the JS code then calls null.map, which
raises a TypeError; the raised error is modelled by Except.error. -/
def TreeV.pathFromRoot (t : TreeV) (v : Val) : Except Unit (List Val) :=
  match findPath v t._root [] with
  | none => Except.error ()
  | some nodes => Except.ok (nodes.map TreeNodeV.value)

/-- parent from segments.ts lines 13-16: propagates the pathFromRoot
TypeError; otherwise null for a path of length at most one, and the
next-to-last path entry else. -/
def TreeV.parent (t : TreeV) (v : Val) : Except Unit (Option Val) :=
  match TreeV.pathFromRoot t v with
  | Except.error e => Except.error e
  | Except.ok p => Except.ok (if p.length > 1 then p[p.length - 2]? else none)

/-- contains from segments.ts line 30. -/
def TreeV.contains (t other : TreeV) : Bool :=
  containsNode t._root other._root

/-- getParam from segments.ts lines 121-123: null when the parameter map is
absent, member access otherwise, which is undefined (none) for a missing
key. -/
def RouteSegment.getParam (s : RouteSegment) (p : String) : Option String :=
  match s.parameters with
  | none => none
  | some m => mapLookup p m

mutual
/-- anyVal p t holds when some node value of t satisfies p; it expresses
presence of a matching value in the tree. -/
def anyVal (p : Val → Bool) : TreeNodeV → Bool
  | .mk v cs => p v || anyValL p cs
def anyValL (p : Val → Bool) : List TreeNodeV → Bool
  | [] => false
  | c :: rest => anyVal p c || anyValL p rest
end

mutual
/-- preorderFind is the search order stated by section 4.1 of the spec: test
the root, then the children left to right, recursing. -/
def preorderFind (p : Val → Bool) : TreeNodeV → Option TreeNodeV
  | .mk v cs => if p v then some (.mk v cs) else preorderFindL p cs
def preorderFindL (p : Val → Bool) : List TreeNodeV → Option TreeNodeV
  | [] => none
  | c :: rest =>
    match preorderFind p c with
    | some r => some r
    | none => preorderFindL p rest
end

/-- nodupKeys m holds when no two entries of m share a key; every JS object
satisfies it. -/
def nodupKeys : List (String × String) → Bool
  | [] => true
  | kv :: rest => (mapLookup kv.1 rest == none) && nodupKeys rest

def paramsWf : Option (List (String × String)) → Bool
  | none => true
  | some m => nodupKeys m

/-- valWf v holds when the parameter maps carried by v are possible JS
objects. -/
def valWf : Val → Bool
  | .route r => paramsWf r.parameters
  | .url u => paramsWf u.parameters
  | .prim _ => true

/-- pairwiseDistinct cs holds when no two sibling values are related by
_equalValues in either direction. -/
def pairwiseDistinct : List TreeNodeV → Bool
  | [] => true
  | c :: rest =>
    rest.all
      (fun d => !(equalValuesV c.value d.value) && !(equalValuesV d.value c.value)) &&
      pairwiseDistinct rest

mutual
/-- treeWf: every value in the tree is wellformed and every sibling list is
free of duplicate values. -/
def treeWf : TreeNodeV → Bool
  | .mk v cs => valWf v && pairwiseDistinct cs && treeWfL cs
def treeWfL : List TreeNodeV → Bool
  | [] => true
  | c :: rest => treeWf c && treeWfL rest
end

mutual
/-- embedsNode is the notion of genuine embeddability used by claim C9: the
two values must be equal and every subtree child must embed into some child
of the current node, not only into the first value-equal one. -/
def embedsNode (t : TreeNodeV) : TreeNodeV → Bool
  | .mk sv scs => equalValuesV t.value sv && embedsAll t.children scs
def embedsAll (tcs : List TreeNodeV) : List TreeNodeV → Bool
  | [] => true
  | sc :: rest => embedsAny tcs sc && embedsAll tcs rest
def embedsAny (tcs : List TreeNodeV) (sc : TreeNodeV) : Bool :=
  match tcs with
  | [] => false
  | tc :: rest => embedsNode tc sc || embedsAny rest sc
end

/-- _serializeParams from segments.ts lines 102-106: StringMapWrapper.forEach
appends one ;k=v piece per entry, in map order. -/
def serializeParams (params : List (String × String)) : String :=
  params.foldl (fun res kv => res ++ ";" ++ kv.1 ++ "=" ++ kv.2) ""

/-- UrlSegment.toString from segments.ts lines 96-99: optional outlet
followed by a colon, then the segment token and the matrix parameters. An
absent parameter map is rendered as empty. -/
def urlSegmentString (u : UrlSegment) : String :=
  (match u.outlet with
   | none => ""
   | some o => o ++ ":") ++ u.segment ++ serializeParams (u.parameters.getD [])

/-- Value rendering used by the URL serializer; route values never occur in
a URL tree. -/
def valString : Val → String
  | .url u => urlSegmentString u
  | .route _ => ""
  | .prim n => toString n

mutual
/-- Modelled from the spec: DefaultRouterUrlSerializer.serialize
(router_url_serializer.ts is not part of this snapshot); per section 4.2 a
child list renders as a slash, the segment of the primary (first) child, the
remaining auxiliary children in parentheses separated by commas, and then
the subtree below the primary child. -/
def serializeNode : TreeNodeV → String
  | .mk v cs => valString v ++ serializeChildren cs
def serializeChildren : List TreeNodeV → String
  | [] => ""
  | .mk v ccs :: rest =>
    "/" ++ valString v ++
      (match rest with
       | [] => ""
       | _ :: _ => "(" ++ serializeSibs rest ++ ")") ++
      serializeChildren ccs
def serializeSibs : List TreeNodeV → String
  | [] => ""
  | [c] => serializeNode c
  | c :: rest => serializeNode c ++ "," ++ serializeSibs rest
end

def serializeUrlTree (t : TreeV) : String := serializeNode t._root

/-- Navigation commands, spec section 4.3: path tokens as strings, positional
values as numbers, and parameter-object mappings. -/
inductive Command where
  | str (s : String)
  | num (n : Int)
  | params (m : List (String × String))
deriving DecidableEq

/-- Normalized command tokens: a path step aimed at an outlet, or a
parameter merge. -/
inductive Token where
  | path (outlet : Option String) (seg : String)
  | merge (m : List (String × String))
deriving DecidableEq

def chSplit (sep : Char) : List Char → List (List Char)
  | [] => [[]]
  | c :: rest =>
    if c == sep then [] :: chSplit sep rest
    else
      match chSplit sep rest with
      | [] => [[c]]
      | piece :: more => (c :: piece) :: more

/-- strSplit restates String.splitOn over the underlying character list. -/
def strSplit (s : String) (sep : Char) : List String :=
  (chSplit sep s.data).map (fun l => String.mk l)

/-- Modelled from the spec: token parsing for one path piece; a piece of the
form outletName:token targets the named outlet (section 4.3 step 5). -/
def parsePiece (piece : String) : Token :=
  match strSplit piece (':') with
  | [o, seg] => Token.path (some o) seg
  | _ => Token.path none piece

/-- Modelled from the spec: a string command contributes its slash-separated
pieces, empty pieces and the relative marker dot being dropped so that ./c2
and c2 coincide (section 4.3 tie-break policy); a number command is
stringified into a positional path token (step 5); a parameter object
becomes a merge token. -/
def commandTokens : Command → List Token
  | Command.str s =>
      ((strSplit s ('/')).filter (fun p => p != "" && p != ".")).map parsePiece
  | Command.num n => [Token.path none (toString n)]
  | Command.params m => [Token.merge m]

def normalizeCommands (cmds : List Command) : List Token :=
  (cmds.map commandTokens).flatten

/-- Modelled from the spec: a command list whose first command is a string
beginning with a slash is absolute (section 4.3 step 3). -/
def isAbsolute : List Command → Bool
  | Command.str s :: _ =>
    match s.data with
    | c :: _ => c == ('/')
    | [] => false
  | _ => false

def valOutlet : Val → Option String
  | .route r => r.outlet
  | .url u => u.outlet
  | .prim _ => none

def valParams : Val → Option (List (String × String))
  | .route r => r.parameters
  | .url u => u.parameters
  | .prim _ => none

/-- splitAtFirst p cs: the part before the first element satisfying p, that
element, and the rest; none when no element satisfies p. -/
def splitAtFirst (p : TreeNodeV → Bool) :
    List TreeNodeV → Option (List TreeNodeV × TreeNodeV × List TreeNodeV)
  | [] => none
  | c :: rest =>
    if p c then some ([], c, rest)
    else
      match splitAtFirst p rest with
      | some (pre, hit, post) => some (c :: pre, hit, post)
      | none => none

/-- Modelled from the spec: parameter merge of section 4.3 step 5: replace
same-named parameters, add new ones, preserve those not mentioned. -/
def mergeParamsList (base upd : List (String × String)) :
    List (String × String) :=
  base.map (fun kv => (kv.1, (mapLookup kv.1 upd).getD kv.2)) ++
    upd.filter (fun kv => mapLookup kv.1 base == none)

/-- Modelled from the spec: steps 5 to 7 of the link algorithm (src/link.ts
is not part of this snapshot). updateMany rewrites an ordered child list
under a token list: a path token replaces the first child on the targeted
outlet, keeping every other sibling untouched by reference, and recurses
into the children of the replaced child with the remaining tokens; when no
child is on that outlet a fresh branch is appended; a merge token
immediately after a path token folds its parameters into the segment just
created, on top of those of the replaced child. -/
def updateMany (children : List TreeNodeV) : List Token → List TreeNodeV
  | [] => children
  | Token.merge _ :: rest => updateMany children rest
  | Token.path o seg :: Token.merge m :: rest =>
    (match splitAtFirst (fun c => valOutlet c.value == o) children with
     | some (pre, old, post) =>
       pre ++ (TreeNodeV.mk
         (Val.url ⟨seg, some (mergeParamsList ((valParams old.value).getD []) m), o, 0⟩)
         (updateMany old.children rest)) :: post
     | none =>
       children ++ [TreeNodeV.mk (Val.url ⟨seg, some m, o, 0⟩) (updateMany [] rest)])
  | Token.path o seg :: rest =>
    (match splitAtFirst (fun c => valOutlet c.value == o) children with
     | some (pre, old, post) =>
       pre ++ (TreeNodeV.mk (Val.url ⟨seg, some [], o, 0⟩)
         (updateMany old.children rest)) :: post
     | none =>
       children ++ [TreeNodeV.mk (Val.url ⟨seg, some [], o, 0⟩) (updateMany [] rest)])

mutual
/-- Structural equality of tree nodes, used to follow a path of nodes taken
from the tree being rebuilt. -/
def nodeBeq : TreeNodeV → TreeNodeV → Bool
  | .mk v cs, .mk w ds => (v == w) && nodesBeq cs ds
def nodesBeq : List TreeNodeV → List TreeNodeV → Bool
  | [], [] => true
  | c :: cs, d :: ds => nodeBeq c d && nodesBeq cs ds
  | _, _ => false
end

/-- Modelled from the spec: relative rebuild of section 4.3 steps 4 and 7:
copy the nodes on the path from the root down to the parent of the anchor,
apply updateMany there, and share every branch off the path by reference. -/
def rebuildAlong (toks : List Token) (node : TreeNodeV) : List TreeNodeV → TreeNodeV
  | [] => TreeNodeV.mk node.value (updateMany node.children toks)
  | next :: rest =>
    TreeNodeV.mk node.value
      (node.children.map
        (fun c => if nodeBeq c next then rebuildAlong toks next rest else c))

/-- Modelled from the spec: edge policy of section 4.3: starting from the
deepest node of a route-tree path, find the last UrlSegment consumed by the
nearest RouteSegment that has URL segments at all. -/
def lastUrlOf : List TreeNodeV → Option UrlSegment
  | [] => none
  | n :: rest =>
    match n.value with
    | Val.route r =>
      (match r.urlSegments.getLast? with
       | some u => some u
       | none => lastUrlOf rest)
    | _ => lastUrlOf rest

/-- Modelled from the spec: the anchor UrlSegment of a start RouteSegment
(section 4.3 step 1 and the degenerate-node edge policy): the last URL
segment consumed by the start segment, or, when it has none, the one of its
nearest ancestor in the route tree that has URL segments. -/
def anchorSegment (start : RouteSegment) (routeTree : TreeV) :
    Option UrlSegment :=
  match start.urlSegments.getLast? with
  | some u => some u
  | none =>
    match findPath (Val.route start) routeTree._root [] with
    | none => none
    | some p => lastUrlOf p.reverse

/-- Modelled from the spec: the link algorithm of section 4.3 (src/link.ts
is not part of this snapshot). Step 2: an empty command list returns the
original tree unchanged. Step 3: an absolute command list rebuilds from the
tree root, the bare root marker leaving the root without children. Step 4:
a relative command list is applied at the parent of the anchor of the start
RouteSegment, every branch off that path being shared by reference. -/
def link (start : RouteSegment) (routeTree : TreeV) (urlTree : TreeV) :
    List Command → TreeV
  | [] => urlTree
  | c :: cs =>
    let toks := normalizeCommands (c :: cs)
    if isAbsolute (c :: cs) then
      if toks.isEmpty then ⟨TreeNodeV.mk urlTree._root.value []⟩
      else ⟨TreeNodeV.mk urlTree._root.value (updateMany urlTree._root.children toks)⟩
    else
      match anchorSegment start routeTree with
      | none => urlTree
      | some aseg =>
        match findPath (Val.url aseg) urlTree._root [] with
        | none => urlTree
        | some p => ⟨rebuildAlong toks urlTree._root ((p.drop 1).dropLast)⟩

/-! Concrete inputs used by the claims. -/

-- UrlSegment values of the URL tree that the external parser produces for
-- the path /a/11/b(c): a chain of empty root, a, 11, then b with the
-- auxiliary sibling c on the default auxiliary outlet named aux.
def segRoot : UrlSegment := ⟨"", some [], none, 100⟩
def segA : UrlSegment := ⟨"a", some [], none, 101⟩
def seg11 : UrlSegment := ⟨"11", some [], none, 102⟩
def segB : UrlSegment := ⟨"b", some [], none, 103⟩
def segC : UrlSegment := ⟨"c", some [], some ("aux"), 104⟩

/-- Modelled from the spec: the URL tree parsed from /a/11/b(c) by the
external parser (not part of this snapshot). -/
def parsedTreeABC : TreeV :=
  ⟨TreeNodeV.mk (Val.url segRoot)
    [TreeNodeV.mk (Val.url segA)
      [TreeNodeV.mk (Val.url seg11)
        [TreeNodeV.mk (Val.url segB) [], TreeNodeV.mk (Val.url segC) []]]]⟩

/-- Route tree built by the helper s(p.root) of the link tests: a single
RouteSegment consuming the root UrlSegment, with empty parameters and null
outlet, type and factory. -/
def startSegmentABC : RouteSegment := ⟨[segRoot], some [], none, none, none, 200⟩

def routeTreeABC : TreeV := ⟨TreeNodeV.mk (Val.route startSegmentABC) []⟩

def commandsABC : List Command :=
  [Command.str ("/a"), Command.num 11, Command.str ("d")]

-- Duplicate-valued siblings: two children both carrying the primitive value
-- one, with different subtrees.
def nodeDupA : TreeNodeV := TreeNodeV.mk (Val.prim 1) []
def nodeDupB : TreeNodeV := TreeNodeV.mk (Val.prim 1) [TreeNodeV.mk (Val.prim 2) []]
def dupTree : TreeNodeV := TreeNodeV.mk (Val.prim 0) [nodeDupA, nodeDupB]
def dupSubtree : TreeNodeV := TreeNodeV.mk (Val.prim 0) [nodeDupB]

-- Two structurally equal but non-identical UrlSegment objects.
def cexU1 : UrlSegment := ⟨"x", some [], none, 0⟩
def cexU2 : UrlSegment := ⟨"x", some [], none, 1⟩
def cexUrlTree : TreeV := ⟨TreeNodeV.mk (Val.url cexU1) []⟩

-- One-node tree over a primitive value, and a value absent from it.
def tinyTree : TreeV := ⟨TreeNodeV.mk (Val.prim 0) []⟩

-- One-node tree whose root value differs from the one of tinyTree.
def tinyTree5 : TreeV := ⟨TreeNodeV.mk (Val.prim 5) []⟩

-- Wellformed tree with pairwise distinct sibling values.
def wfExampleTree : TreeV :=
  ⟨TreeNodeV.mk (Val.prim 0) [TreeNodeV.mk (Val.prim 1) [], TreeNodeV.mk (Val.prim 2) []]⟩

-- Concrete segments for witnesses.
def wSegA : RouteSegment := ⟨[], some [], none, none, none, 300⟩
def wUrlA : UrlSegment := ⟨"w", some [], none, 301⟩
def wUrlP1 : UrlSegment := ⟨"s", some [("x", "1"), ("y", "2")], none, 310⟩
def wUrlP2 : UrlSegment := ⟨"s", some [("y", "2"), ("x", "1")], none, 311⟩
def wRt1 : RouteSegment := ⟨[wUrlA], some [("p", "1")], some ("aux"), some 7, none, 320⟩
def wRt2 : RouteSegment := ⟨[], some [("p", "1")], some ("aux"), some 7, some 3, 321⟩
def wRtNoParams : RouteSegment := ⟨[], none, none, none, none, 330⟩
def wRtParams : RouteSegment := ⟨[], some [("id", "11")], none, none, none, 331⟩


/-! Helper lemmas about maps and value equality. -/

theorem mapLookup_isSome_of_mem {k v : String} {m : List (String × String)}
    (h : (k, v) ∈ m) : (mapLookup k m).isSome = true := by
  induction m with
  | nil => simp at h
  | cons kv rest ih =>
    rcases List.mem_cons.mp h with h1 | h2
    · subst h1
      simp [mapLookup]
    · cases hc : kv.1 == k with
      | true => simp [mapLookup, hc]
      | false => simpa [mapLookup, hc] using ih h2

theorem mapLookup_eq_some_of_mem_nodup {k v : String} {m : List (String × String)}
    (hd : nodupKeys m = true) (h : (k, v) ∈ m) : mapLookup k m = some v := by
  induction m with
  | nil => simp at h
  | cons kv rest ih =>
    have hd2 : mapLookup kv.1 rest = none ∧ nodupKeys rest = true := by
      simpa [nodupKeys, Bool.and_eq_true] using hd
    rcases List.mem_cons.mp h with h1 | h2
    · subst h1
      simp [mapLookup]
    · cases hc : kv.1 == k with
      | true =>
        exfalso
        have hk : kv.1 = k := eq_of_beq hc
        have hs := mapLookup_isSome_of_mem h2
        rw [← hk, hd2.1] at hs
        simp at hs
      | false =>
        simpa [mapLookup, hc] using ih hd2.2 h2

theorem mem_of_mapLookup_eq_some {k v : String} {m : List (String × String)}
    (h : mapLookup k m = some v) : (k, v) ∈ m := by
  induction m with
  | nil => simp [mapLookup] at h
  | cons kv rest ih =>
    obtain ⟨k1, v1⟩ := kv
    cases hc : k1 == k with
    | true =>
      simp [mapLookup, hc] at h
      have hk : k1 = k := eq_of_beq hc
      subst hk
      subst h
      simp
    | false =>
      simp [mapLookup, hc] at h
      simp [ih h]

theorem nodup_of_nodupKeys {m : List (String × String)}
    (h : nodupKeys m = true) : m.Nodup := by
  induction m with
  | nil => simp
  | cons kv rest ih =>
    have h2 : mapLookup kv.1 rest = none ∧ nodupKeys rest = true := by
      simpa [nodupKeys, Bool.and_eq_true] using h
    refine List.nodup_cons.mpr ⟨?_, ih h2.2⟩
    intro hmem
    have hmem2 : (kv.1, kv.2) ∈ rest := by simpa using hmem
    have hs := mapLookup_isSome_of_mem hmem2
    rw [h2.1] at hs
    simp at hs

theorem stringMapEquals_iff {m1 m2 : List (String × String)}
    (h1 : nodupKeys m1 = true) (h2 : nodupKeys m2 = true) :
    stringMapEquals m1 m2 = true ↔ ∀ kv : String × String, kv ∈ m1 ↔ kv ∈ m2 := by
  constructor
  · intro h
    have hparts : (m1.length == m2.length) = true ∧
        (m1.all fun kv => mapLookup kv.1 m2 == some kv.2) = true := by
      simpa [stringMapEquals, Bool.and_eq_true] using h
    have hlen : m1.length = m2.length := by simpa using hparts.1
    have hsub : m1 ⊆ m2 := by
      intro kv hkv
      have hall := List.all_eq_true.mp hparts.2 kv hkv
      have hlk : mapLookup kv.1 m2 = some kv.2 := by simpa using hall
      have hm := mem_of_mapLookup_eq_some hlk
      simpa using hm
    have hperm : List.Perm m1 m2 :=
      List.Subperm.perm_of_length_le
        (List.Nodup.subperm (nodup_of_nodupKeys h1) hsub) (by omega)
    intro kv
    exact hperm.mem_iff
  · intro h
    have hperm : List.Perm m1 m2 :=
      (List.perm_ext_iff_of_nodup (nodup_of_nodupKeys h1)
        (nodup_of_nodupKeys h2)).mpr h
    have hlen : m1.length = m2.length := hperm.length_eq
    have hall : (m1.all fun kv => mapLookup kv.1 m2 == some kv.2) = true := by
      refine List.all_eq_true.mpr ?_
      intro kv hkv
      show (mapLookup kv.1 m2 == some kv.2) = true
      have hm : (kv.1, kv.2) ∈ m2 := (h (kv.1, kv.2)).mp (by simpa using hkv)
      simp [mapLookup_eq_some_of_mem_nodup h2 hm]
    unfold stringMapEquals
    rw [hall, hlen]
    simp

theorem stringMapEquals_refl {m : List (String × String)}
    (h : nodupKeys m = true) : stringMapEquals m m = true := by
  have hall : (m.all fun kv => mapLookup kv.1 m == some kv.2) = true := by
    refine List.all_eq_true.mpr ?_
    intro kv hkv
    show (mapLookup kv.1 m == some kv.2) = true
    have hm : (kv.1, kv.2) ∈ m := by simpa using hkv
    simp [mapLookup_eq_some_of_mem_nodup h hm]
  unfold stringMapEquals
  rw [hall]
  simp

theorem nodupKeys_getD {p : Option (List (String × String))}
    (h : paramsWf p = true) : nodupKeys (p.getD []) = true := by
  cases p with
  | none => rfl
  | some m => simpa [paramsWf] using h

theorem stringMapEqualsOpt_refl {p : Option (List (String × String))}
    (h : paramsWf p = true) : stringMapEqualsOpt p p = true :=
  stringMapEquals_refl (nodupKeys_getD h)

theorem equalValuesV_refl {v : Val} (h : valWf v = true) :
    equalValuesV v v = true := by
  cases v with
  | route r =>
    simp [equalValuesV, equalSegmentsVal, equalSegmentsCore,
      stringMapEqualsOpt_refl (show paramsWf r.parameters = true by simpa [valWf] using h)]
  | url u =>
    simp [equalValuesV, equalUrlSegmentsVal, equalUrlSegmentsCore,
      stringMapEqualsOpt_refl (show paramsWf u.parameters = true by simpa [valWf] using h)]
  | prim n => simp [equalValuesV, jsIdentical]

/-- Structural induction principle for TreeNodeV with a membership-based
hypothesis for the children. -/
theorem TreeNodeV.inductionOn (P : TreeNodeV → Prop)
    (h : ∀ v cs, (∀ c, c ∈ cs → P c) → P (TreeNodeV.mk v cs)) : ∀ t, P t
  | .mk v cs => h v cs (fun c _hc => TreeNodeV.inductionOn P h c)
termination_by t => sizeOf t
decreasing_by
  have h2 := List.sizeOf_lt_of_mem _hc
  simp
  omega


/-! Helper lemmas about trees. -/

theorem treeWfL_mem : ∀ {cs : List TreeNodeV}, treeWfL cs = true →
    ∀ c ∈ cs, treeWf c = true := by
  intro cs
  induction cs with
  | nil => intro _ c hc; simp at hc
  | cons a rest ih =>
    intro h c hc
    have h2 : treeWf a = true ∧ treeWfL rest = true := by
      simpa [treeWfL, Bool.and_eq_true] using h
    rcases List.mem_cons.mp hc with h1 | h3
    · subst h1; exact h2.1
    · exact ih h2.2 c h3

theorem valWf_of_treeWf {t : TreeNodeV} (h : treeWf t = true) :
    valWf t.value = true := by
  cases t with
  | mk v cs =>
    have h2 : valWf v = true ∧ pairwiseDistinct cs = true ∧ treeWfL cs = true := by
      simpa [treeWf, Bool.and_eq_true, and_assoc] using h
    simpa [TreeNodeV.value] using h2.1

theorem filter_equalValues_singleton {cs : List TreeNodeV} {c : TreeNodeV}
    (hp : pairwiseDistinct cs = true) (hm : c ∈ cs)
    (hrefl : equalValuesV c.value c.value = true) :
    cs.filter (fun d => equalValuesV d.value c.value) = [c] := by
  induction cs with
  | nil => simp at hm
  | cons a rest ih =>
    have hp2 : (rest.all fun d =>
        !(equalValuesV a.value d.value) && !(equalValuesV d.value a.value)) = true ∧
        pairwiseDistinct rest = true := by
      simpa [pairwiseDistinct, Bool.and_eq_true] using hp
    rcases List.mem_cons.mp hm with h1 | h2
    · subst h1
      have hrest : ∀ d ∈ rest, equalValuesV d.value c.value = false := by
        intro d hd
        have hx := List.all_eq_true.mp hp2.1 d hd
        have hx2 : (!(equalValuesV c.value d.value) &&
            !(equalValuesV d.value c.value)) = true := hx
        simp [Bool.and_eq_true] at hx2
        exact hx2.2
      have hfr : rest.filter (fun d => equalValuesV d.value c.value) = [] := by
        refine List.filter_eq_nil_iff.mpr ?_
        intro d hd
        simp [hrest d hd]
      simp [List.filter_cons, hrefl, hfr]
    · have hac : equalValuesV a.value c.value = false := by
        have hx := List.all_eq_true.mp hp2.1 c h2
        have hx2 : (!(equalValuesV a.value c.value) &&
            !(equalValuesV c.value a.value)) = true := hx
        simp [Bool.and_eq_true] at hx2
        exact hx2.1
      simp [List.filter_cons, hac, ih hp2.2 h2]

theorem containsChildren_self {cs : List TreeNodeV}
    (hp : pairwiseDistinct cs = true)
    (hself : ∀ c ∈ cs, containsNode c c = true)
    (hrefl : ∀ c ∈ cs, equalValuesV c.value c.value = true) :
    ∀ scs, (∀ sc ∈ scs, sc ∈ cs) → containsChildren cs scs = true := by
  intro scs
  induction scs with
  | nil => intro _; rfl
  | cons sc rest ih =>
    intro hsub
    have hmem : sc ∈ cs := hsub sc (by simp)
    have hfil := filter_equalValues_singleton hp hmem (hrefl sc hmem)
    have hrec := ih (fun x hx => hsub x (List.mem_cons_of_mem sc hx))
    simp only [containsChildren]
    rw [hfil]
    simp [hself sc hmem, hrec]

theorem containsNode_self : ∀ t : TreeNodeV, treeWf t = true →
    containsNode t t = true := by
  apply TreeNodeV.inductionOn
  intro v cs ih hwf
  have hw : valWf v = true ∧ pairwiseDistinct cs = true ∧ treeWfL cs = true := by
    simpa [treeWf, Bool.and_eq_true, and_assoc] using hwf
  have hmemwf : ∀ c ∈ cs, treeWf c = true := treeWfL_mem hw.2.2
  have hself : ∀ c ∈ cs, containsNode c c = true := fun c hc => ih c hc (hmemwf c hc)
  have hrefl : ∀ c ∈ cs, equalValuesV c.value c.value = true := fun c hc =>
    equalValuesV_refl (valWf_of_treeWf (hmemwf c hc))
  have hcc := containsChildren_self hw.2.1 hself hrefl cs (fun x hx => hx)
  simp [containsNode, TreeNodeV.value, TreeNodeV.children,
    equalValuesV_refl hw.1, hcc]

theorem containsNode_false_of_value {t s : TreeNodeV}
    (h : equalValuesV t.value s.value = false) : containsNode t s = false := by
  cases s with
  | mk sv scs =>
    have h2 : equalValuesV t.value sv = false := by
      simpa [TreeNodeV.value] using h
    simp [containsNode, h2]

theorem findNodeL_none_aux {v : Val} : ∀ {cs : List TreeNodeV},
    (∀ c ∈ cs, anyVal (findNodeMatch v) c = false → findNode v c = none) →
    anyValL (findNodeMatch v) cs = false → findNodeL v cs = none := by
  intro cs
  induction cs with
  | nil => intro _ _; rfl
  | cons c rest ih =>
    intro hIH habs
    have h1 : anyVal (findNodeMatch v) c = false ∧
        anyValL (findNodeMatch v) rest = false := by
      simpa [anyValL, Bool.or_eq_false_iff] using habs
    simp [findNodeL, hIH c (by simp) h1.1,
      ih (fun x hx hh => hIH x (List.mem_cons_of_mem c hx) hh) h1.2]

theorem findNode_none_of_absent {v : Val} : ∀ t : TreeNodeV,
    anyVal (findNodeMatch v) t = false → findNode v t = none := by
  apply TreeNodeV.inductionOn
  intro w cs ih habs
  have h1 : findNodeMatch v w = false ∧ anyValL (findNodeMatch v) cs = false := by
    simpa [anyVal, Bool.or_eq_false_iff] using habs
  have h2 : routeStructMatch v w = false ∧ jsIdentical v w = false := by
    simpa [findNodeMatch, Bool.or_eq_false_iff] using h1.1
  simp [findNode, h2.1, h2.2, findNodeL_none_aux ih h1.2]

theorem findPathL_none_aux {v : Val} : ∀ {cs : List TreeNodeV},
    (∀ c ∈ cs, anyVal (equalValuesV v) c = false →
      ∀ coll, findPath v c coll = none) →
    anyValL (equalValuesV v) cs = false →
    ∀ coll, findPathL v cs coll = none := by
  intro cs
  induction cs with
  | nil => intro _ _ coll; rfl
  | cons c rest ih =>
    intro hIH habs coll
    have h1 : anyVal (equalValuesV v) c = false ∧
        anyValL (equalValuesV v) rest = false := by
      simpa [anyValL, Bool.or_eq_false_iff] using habs
    simp [findPathL, hIH c (by simp) h1.1 coll,
      ih (fun x hx hh => hIH x (List.mem_cons_of_mem c hx) hh) h1.2 coll]

theorem findPath_none_of_absent {v : Val} : ∀ t : TreeNodeV,
    anyVal (equalValuesV v) t = false → ∀ coll, findPath v t coll = none := by
  apply TreeNodeV.inductionOn
  intro w cs ih habs coll
  have h1 : equalValuesV v w = false ∧ anyValL (equalValuesV v) cs = false := by
    simpa [anyVal, Bool.or_eq_false_iff] using habs
  simp [findPath, h1.1, findPathL_none_aux ih h1.2 (coll ++ [TreeNodeV.mk w cs])]

theorem findNodeL_eq_preorderFindL {v : Val} : ∀ {cs : List TreeNodeV},
    (∀ c ∈ cs, findNode v c = preorderFind (findNodeMatch v) c) →
    findNodeL v cs = preorderFindL (findNodeMatch v) cs := by
  intro cs
  induction cs with
  | nil => intro _; rfl
  | cons c rest ih =>
    intro hIH
    have h1 := hIH c (by simp)
    have h2 := ih (fun x hx => hIH x (List.mem_cons_of_mem c hx))
    cases hc2 : preorderFind (findNodeMatch v) c with
    | some r => simp [findNodeL, preorderFindL, h1, hc2]
    | none => simp [findNodeL, preorderFindL, h1, hc2, h2]

theorem findNode_eq_preorderFind {v : Val} : ∀ t : TreeNodeV,
    findNode v t = preorderFind (findNodeMatch v) t := by
  apply TreeNodeV.inductionOn
  intro w cs ih
  cases hr : routeStructMatch v w with
  | true => simp [findNode, preorderFind, findNodeMatch, hr]
  | false =>
    cases hj : jsIdentical v w with
    | true => simp [findNode, preorderFind, findNodeMatch, hr, hj]
    | false =>
      simp [findNode, preorderFind, findNodeMatch, hr, hj,
        findNodeL_eq_preorderFindL ih]

/-! Claim theorems. -/

/-- C1: for the URL tree parsed from /a/11/b(c) and the command list with
/a, 11, d, link returns a URL tree that serializes to /a/11/d(aux:c); the
main route is rewritten while the auxiliary sibling subtree c is preserved
verbatim: the result shares the original c node (object ref 104) unchanged. -/
theorem c1_sibling_preservation :
    serializeUrlTree (link startSegmentABC routeTreeABC parsedTreeABC commandsABC) =
      "/a/11/d(aux:c)" ∧
    (link startSegmentABC routeTreeABC parsedTreeABC commandsABC)._root =
      TreeNodeV.mk (Val.url segRoot)
        [TreeNodeV.mk (Val.url ⟨"a", some [], none, 0⟩)
          [TreeNodeV.mk (Val.url ⟨"11", some [], none, 0⟩)
            [TreeNodeV.mk (Val.url ⟨"d", some [], none, 0⟩) [],
             TreeNodeV.mk (Val.url segC) []]]] :=
  ⟨by decide, rfl⟩

/-- C2: link with an empty command list returns the given UrlTree itself,
by the identity short-circuit of step 2 of the algorithm. -/
theorem c2_empty_commands_identity (start : RouteSegment)
    (routeTree urlTree : TreeV) :
    link start routeTree urlTree [] = urlTree := rfl

/-- C3 counterexample: on a value absent from the tree, pathFromRoot and
parent do not return null: _findPath returns null and the method then calls
null.map, raising a TypeError (modelled by Except.error). -/
theorem c3_counterexample :
    TreeV.pathFromRoot tinyTree (Val.prim 1) = Except.error () ∧
    TreeV.parent tinyTree (Val.prim 1) = Except.error () :=
  ⟨rfl, rfl⟩

/-- C3 amended: for a value absent from the tree, children and firstChild
return null without error, and contains between trees whose root values
differ returns false; but pathFromRoot and parent raise a TypeError on an
absent value instead of returning null. -/
theorem c3_amended :
    (∀ (t : TreeV) (v : Val), anyVal (findNodeMatch v) t._root = false →
      TreeV.children t v = none ∧ TreeV.firstChild t v = none) ∧
    (∀ (t : TreeV) (v : Val), anyVal (equalValuesV v) t._root = false →
      TreeV.pathFromRoot t v = Except.error () ∧
        TreeV.parent t v = Except.error ()) ∧
    (∀ t s : TreeV, equalValuesV (TreeV.root t) (TreeV.root s) = false →
      TreeV.contains t s = false) := by
  refine ⟨?_, ?_, ?_⟩
  · intro t v habs
    have hn := findNode_none_of_absent t._root habs
    exact ⟨by simp [TreeV.children, hn], by simp [TreeV.firstChild, hn]⟩
  · intro t v habs
    have hn := findPath_none_of_absent t._root habs []
    exact ⟨by simp [TreeV.pathFromRoot, hn],
      by simp [TreeV.parent, TreeV.pathFromRoot, hn]⟩
  · intro t s h
    have h2 : equalValuesV t._root.value s._root.value = false := h
    simpa [TreeV.contains] using containsNode_false_of_value h2

theorem c3_amended_witness :
    TreeV.children tinyTree (Val.prim 1) = none ∧
    TreeV.firstChild tinyTree (Val.prim 1) = none ∧
    TreeV.pathFromRoot tinyTree (Val.prim 1) = Except.error () ∧
    TreeV.contains tinyTree tinyTree5 = false :=
  ⟨(c3_amended.1 tinyTree (Val.prim 1) (by rfl)).1,
   (c3_amended.1 tinyTree (Val.prim 1) (by rfl)).2,
   (c3_amended.2.1 tinyTree (Val.prim 1) (by rfl)).1,
   c3_amended.2.2 tinyTree tinyTree5 (by rfl)⟩

/-- C4 counterexample: a UrlSegment value structurally equal under
equalUrlSegments but not identical to the node value is NOT found by
children or firstChild: _findNode has no UrlSegment case and falls back to
strict identity, so both lookups return null on the structural match. -/
theorem c4_counterexample :
    equalUrlSegments (some cexU1) (some cexU2) = some true ∧
    jsIdentical (Val.url cexU1) (Val.url cexU2) = false ∧
    TreeV.children cexUrlTree (Val.url cexU2) = none ∧
    TreeV.firstChild cexUrlTree (Val.url cexU2) = none :=
  ⟨rfl, rfl, rfl, rfl⟩

/-- C4 amended: children and firstChild locate the node via _findNode, a
pre-order depth-first search whose match rule handles only the RouteSegment
structural case: a RouteSegment value matches via equalSegments or strict
identity, while UrlSegment values and all other values match only by strict
identity; structural UrlSegment equality is used by _findPath, not by
_findNode. -/
theorem c4_amended :
    (∀ (v : Val) (t : TreeNodeV),
      findNode v t = preorderFind (findNodeMatch v) t) ∧
    (∀ (u : UrlSegment) (w : Val),
      findNodeMatch (Val.url u) w = jsIdentical (Val.url u) w) ∧
    (∀ (n : Nat) (w : Val),
      findNodeMatch (Val.prim n) w = jsIdentical (Val.prim n) w) ∧
    (∀ (r : RouteSegment) (w : Val),
      findNodeMatch (Val.route r) w =
        (equalSegmentsVal r w || jsIdentical (Val.route r) w)) := by
  refine ⟨fun v t => findNode_eq_preorderFind t, ?_, ?_, ?_⟩
  · intro u w; simp [findNodeMatch, routeStructMatch]
  · intro n w; simp [findNodeMatch, routeStructMatch]
  · intro r w; simp [findNodeMatch, routeStructMatch]

/-- C5 counterexample: with both arguments null, equalSegments and
equalUrlSegments do not return a Boolean: the isBlank guards fall through
and the field read on null raises a TypeError (modelled by none). -/
theorem c5_counterexample :
    equalSegments none none = none ∧ equalUrlSegments none none = none :=
  ⟨rfl, rfl⟩

/-- C5 amended: equalSegments and equalUrlSegments return a Boolean without
error whenever at least one argument is present: false when exactly one is
null, the core comparison when both are present (an absent parameter map
being compared as empty after the diagnostic output); only the case of two
null arguments raises a TypeError. -/
theorem c5_amended (a b : Option RouteSegment) (c d : Option UrlSegment)
    (hab : a.isSome = true ∨ b.isSome = true)
    (hcd : c.isSome = true ∨ d.isSome = true) :
    (equalSegments a b).isSome = true ∧ (equalUrlSegments c d).isSome = true := by
  constructor
  · cases a with
    | some x => cases b <;> rfl
    | none =>
      cases b with
      | some y => rfl
      | none => simp at hab
  · cases c with
    | some x => cases d <;> rfl
    | none =>
      cases d with
      | some y => rfl
      | none => simp at hcd

theorem c5_amended_witness :
    (equalSegments (some wSegA) none).isSome = true ∧
    (equalUrlSegments none (some wUrlA)).isSome = true :=
  c5_amended (some wSegA) none none (some wUrlA) (Or.inl rfl) (Or.inr rfl)

/-- C6: for present UrlSegment values whose parameter maps are JS objects
(no duplicate keys), equalUrlSegments is true exactly when the segment
tokens agree, the outlets agree, and the parameter maps are equal as sets
of key/value pairs, independent of entry order. -/
theorem c6_equalUrlSegments_characterization (a b : UrlSegment)
    (ma mb : List (String × String))
    (hpa : a.parameters = some ma) (hpb : b.parameters = some mb)
    (hna : nodupKeys ma = true) (hnb : nodupKeys mb = true) :
    equalUrlSegments (some a) (some b) = some true ↔
      (a.segment = b.segment ∧ a.outlet = b.outlet ∧
        ∀ kv : String × String, kv ∈ ma ↔ kv ∈ mb) := by
  have hmaps := stringMapEquals_iff hna hnb
  constructor
  · intro h
    have hcore : equalUrlSegmentsCore a b = true := by
      simpa [equalUrlSegments] using h
    have hparts : (a.segment == b.segment) = true ∧ (a.outlet == b.outlet) = true ∧
        stringMapEqualsOpt a.parameters b.parameters = true := by
      simpa [equalUrlSegmentsCore, Bool.and_eq_true, and_assoc] using hcore
    refine ⟨by simpa using hparts.1, by simpa using hparts.2.1, ?_⟩
    have hm : stringMapEquals ma mb = true := by
      simpa [stringMapEqualsOpt, hpa, hpb] using hparts.2.2
    exact hmaps.mp hm
  · rintro ⟨h1, h2, h3⟩
    have hm : stringMapEquals ma mb = true := hmaps.mpr h3
    simp [equalUrlSegments, equalUrlSegmentsCore, h1, h2,
      stringMapEqualsOpt, hpa, hpb, hm]

theorem c6_witness : equalUrlSegments (some wUrlP1) (some wUrlP2) = some true := by
  refine (c6_equalUrlSegments_characterization wUrlP1 wUrlP2
    [("x", "1"), ("y", "2")] [("y", "2"), ("x", "1")] rfl rfl (by rfl) (by rfl)).mpr
    ⟨rfl, rfl, ?_⟩
  intro kv
  simp only [List.mem_cons, List.not_mem_nil, or_false]
  exact or_comm

/-- C7: for present RouteSegment values whose parameter maps are JS objects,
equalSegments is true exactly when the matched-route-type identities agree,
the outlets agree and the parameter maps are equal as sets of key/value
pairs; the urlSegments sequences are never compared, so a RouteSegment stays
equal to itself with the urlSegments field replaced arbitrarily. -/
theorem c7_equalSegments_characterization (a b : RouteSegment)
    (ma mb : List (String × String))
    (hpa : a.parameters = some ma) (hpb : b.parameters = some mb)
    (hna : nodupKeys ma = true) (hnb : nodupKeys mb = true) :
    (equalSegments (some a) (some b) = some true ↔
      (a._type = b._type ∧ a.outlet = b.outlet ∧
        ∀ kv : String × String, kv ∈ ma ↔ kv ∈ mb)) ∧
    (∀ us : List UrlSegment,
      equalSegments (some a) (some { a with urlSegments := us }) = some true) := by
  have hmaps := stringMapEquals_iff hna hnb
  constructor
  · constructor
    · intro h
      have hcore : equalSegmentsCore a b = true := by
        simpa [equalSegments] using h
      have hparts : (a._type == b._type) = true ∧ (a.outlet == b.outlet) = true ∧
          stringMapEqualsOpt a.parameters b.parameters = true := by
        simpa [equalSegmentsCore, Bool.and_eq_true, and_assoc] using hcore
      refine ⟨by simpa using hparts.1, by simpa using hparts.2.1, ?_⟩
      have hm : stringMapEquals ma mb = true := by
        simpa [stringMapEqualsOpt, hpa, hpb] using hparts.2.2
      exact hmaps.mp hm
    · rintro ⟨h1, h2, h3⟩
      have hm : stringMapEquals ma mb = true := hmaps.mpr h3
      simp [equalSegments, equalSegmentsCore, h1, h2,
        stringMapEqualsOpt, hpa, hpb, hm]
  · intro us
    have hrefl : stringMapEquals ma ma = true := stringMapEquals_refl hna
    simp [equalSegments, equalSegmentsCore, stringMapEqualsOpt, hpa, hrefl]

theorem c7_witness :
    wRt1.urlSegments ≠ wRt2.urlSegments ∧
    equalSegments (some wRt1) (some wRt2) = some true :=
  ⟨by decide,
   (c7_equalSegments_characterization wRt1 wRt2 [("p", "1")] [("p", "1")]
     rfl rfl (by rfl) (by rfl)).1.mpr ⟨rfl, rfl, fun kv => Iff.rfl⟩⟩

/-- C8 counterexample: a tree with two duplicate-valued siblings whose
subtrees differ does not contain itself: checking the second sibling, the
filter selects the first one, whose subtree lacks the needed child. -/
theorem c8_counterexample : TreeV.contains ⟨dupTree⟩ ⟨dupTree⟩ = false := rfl

/-- C8 amended: self-containment holds for every tree whose values carry
wellformed (JS object) parameter maps and whose sibling lists carry pairwise
distinct values; with duplicate-valued siblings it can fail, see the
counterexample. -/
theorem c8_amended (t : TreeV) (h : treeWf t._root = true) :
    TreeV.contains t t = true := by
  simpa [TreeV.contains] using containsNode_self t._root h

theorem c8_amended_witness :
    treeWf wfExampleTree._root = true ∧
    TreeV.contains wfExampleTree wfExampleTree = true :=
  ⟨rfl, c8_amended wfExampleTree rfl⟩

/-- C9: contains commits to the first value-equal child: for the concrete
tree dupTree and subtree dupSubtree, the subtree is genuinely embeddable
(embedsNode holds), yet contains returns false, because the first
value-equal sibling nodeDupA is the one recursed into and it does not
contain nodeDupB. -/
theorem c9_first_match_commitment :
    embedsNode dupTree dupSubtree = true ∧
    TreeV.contains ⟨dupTree⟩ ⟨dupSubtree⟩ = false ∧
    (dupTree.children.filter
      (fun c => equalValuesV c.value nodeDupB.value)).head? = some nodeDupA ∧
    containsNode nodeDupA nodeDupB = false := by
  refine ⟨?_, rfl, rfl, rfl⟩
  simp [embedsNode, embedsAll, embedsAny, dupTree, dupSubtree, nodeDupA, nodeDupB,
    equalValuesV, jsIdentical, TreeNodeV.value, TreeNodeV.children]

/-- C10: getParam returns null for every parameter name when the parameter
map is absent, and the value stored under the key when the map is present
and holds the key. -/
theorem c10_getParam (s : RouteSegment) (p : String) :
    (s.parameters = none → RouteSegment.getParam s p = none) ∧
    (∀ (m : List (String × String)) (v : String), s.parameters = some m →
      nodupKeys m = true → (p, v) ∈ m → RouteSegment.getParam s p = some v) := by
  constructor
  · intro h; simp [RouteSegment.getParam, h]
  · intro m v hm hn hmem
    simp [RouteSegment.getParam, hm, mapLookup_eq_some_of_mem_nodup hn hmem]

theorem c10_getParam_witness :
    RouteSegment.getParam wRtNoParams ("id") = none ∧
    RouteSegment.getParam wRtParams ("id") = some "11" :=
  ⟨(c10_getParam wRtNoParams ("id")).1 rfl,
   (c10_getParam wRtParams ("id")).2 [("id", "11")] "11" rfl (by rfl) (by simp)⟩

end Router
